import Mathlib

/-!
Verification of a read-only FAT32 driver (fat32/src): a shallow embedding of
the MBR parser (mbr.rs), the FAT engine and cluster I/O (vfat/vfat.rs), the
directory decoder (vfat/dir.rs) and the file facade (vfat/file.rs), together
with theorems about the embedded operations.

Machine integers are modelled as `Nat` (with explicit `% 2^w` where the source
truncates); fallible code returns explicit result types.  The cached device
(vfat/cache.rs) is modelled as a total function from logical sector number to
sector contents: `CachedDevice::get`/`read_sector` serve data from that view.
-/

/-- The error kinds of `std::io::Error` that the driver produces
(spec section 7). -/
inductive IoErr where
  | invalidInput
  | notFound
  | unreadable
  deriving DecidableEq, Repr

/-- Models `std::io::Result`: either a value or an `IoErr`. -/
inductive IoResult (α : Type) where
  | ok (val : α)
  | err (e : IoErr)
  deriving DecidableEq, Repr

/-- Functorial action on the `ok` value, errors pass through. -/
def IoResult.map {α β : Type} (f : α → β) : IoResult α → IoResult β
  | .ok v => .ok (f v)
  | .err e => .err e

/-- The little-endian 16-bit word at byte offset `off` of `l`
(out-of-range bytes read as 0). -/
def read16LE (l : List Nat) (off : Nat) : Nat :=
  l.getD off 0 + 256 * l.getD (off + 1) 0

/-- The little-endian 32-bit word at byte offset `off` of `l`
(out-of-range bytes read as 0). -/
def read32LE (l : List Nat) (off : Nat) : Nat :=
  l.getD off 0 + 256 * l.getD (off + 1) 0 +
    65536 * l.getD (off + 2) 0 + 16777216 * l.getD (off + 3) 0

/-- Overwrite `l` at positions `pos, pos+1, ...` with the elements of `xs`
(models `slice::copy_from_slice` into `l[pos..pos + xs.len()]`). -/
def writeAt (l : List Nat) (pos : Nat) (xs : List Nat) : List Nat :=
  l.take pos ++ xs ++ l.drop (pos + xs.length)

/-- The status of a FAT entry.  Modelled from the spec: `vfat/fat.rs` is not
under src/ (only `mod.rs` declares it); the spec gives the classification
table of `FatEntry::status()` in section 4.4. -/
inductive Status where
  | unused
  | reserved
  | data (next : Nat)
  | bad
  | eoc (marker : Nat)
  deriving DecidableEq, Repr

/-- Modelled from the spec: classification of the low 28 bits of a 32-bit FAT
entry value (spec section 4.4 table); `vfat/fat.rs` is absent from src/. -/
def fatStatus (val : Nat) : Status :=
  let e := val % 268435456
  if e = 0 then .unused
  else if e = 1 then .reserved
  else if e ≤ 0x0FFFFFEF then .data e
  else if e ≤ 0x0FFFFFF6 then .reserved
  else if e = 0x0FFFFFF7 then .bad
  else .eoc val

/-- The `VFat` facade of vfat/vfat.rs: geometry fields plus `disk`, the
logical-sector view served by the `CachedDevice` (vfat/cache.rs): `disk s` is
the contents of cached logical sector `s`.  `Cluster` (vfat/cluster.rs, absent
from src/) is an opaque u32 cluster number, modelled as `Nat`; `get_index`
returns the raw number (spec section 3). -/
structure VFat where
  bytesPerSector : Nat
  sectorsPerCluster : Nat
  fatStartSector : Nat
  dataStartSector : Nat
  disk : Nat → List Nat

/-- Modelled from the spec: `size_of::<FatEntry>()`.  `vfat/fat.rs` is absent
from src/; the spec (section 3) says a FAT entry is a 32-bit packed value, so
the size is 4 bytes. -/
def fatEntrySize : Nat := 4

/-- `VFat::fat_entry` (vfat/vfat.rs lines 112-124): locate the 32-bit FAT
entry of `cluster`.  The cast `&[u8] -> &[FatEntry]` reads the little-endian
32-bit word at byte offset `4 * index` of the cached sector. -/
def fat_entry (v : VFat) (cluster : Nat) : Nat :=
  let entries_per_sector := v.bytesPerSector / fatEntrySize
  let nth_sec_in_fat := cluster / entries_per_sector
  let index_in_sector := cluster % entries_per_sector
  let sec := v.disk (nth_sec_in_fat + v.fatStartSector)
  read32LE sec (index_in_sector * 4)

/-- The loop body of `VFat::read_cluster`: `read += device.read_sector(i,
&mut buf[read..])` over a list of sector numbers, where
`CachedDevice::read_sector` (vfat/cache.rs lines 128-133) copies
`min(sector_len, buf_len)` bytes.  Returns the bytes written into the buffer
(in order) and the total count. -/
def readSectorsEval (v : VFat) : List Nat → Nat → List Nat × Nat
  | [], _ => ([], 0)
  | i :: rest, remaining =>
    let sec := v.disk i
    let len := min sec.length remaining
    let tail := readSectorsEval v rest (remaining - len)
    (sec.take len ++ tail.1, len + tail.2)

/-- `VFat::read_cluster` (vfat/vfat.rs lines 64-79).  `bufLen` is the length
of the output buffer; the result is the bytes written and the count returned.
The source computes `cluster.get_index() - 2` in u32; for `cluster < 2` the
Rust value would wrap where `Nat` subtraction truncates, but clusters below 2
are reserved and never reached on a valid volume. -/
def read_cluster (v : VFat) (cluster offset bufLen : Nat) : List Nat × Nat :=
  let cluster_start := (cluster - 2) * v.sectorsPerCluster + v.dataStartSector
  let start_sector := cluster_start + offset
  let end_sector := cluster_start + v.sectorsPerCluster
  let can_read := bufLen / v.bytesPerSector
  let can_read_end := min end_sector (start_sector + can_read)
  readSectorsEval v ((List.range (can_read_end - start_sector)).map
    (fun i => start_sector + i)) bufLen

/-- The loop of `VFat::read_chain` (vfat/vfat.rs lines 89-106), with explicit
state: current cluster, buffer, running byte count `read`.  Each round resizes
the buffer by one cluster's worth of zero bytes, reads the current cluster
into `buf[read..]`, and consults the FAT: continue on `Data`, stop on `Eoc`,
fail otherwise (`io::Error::Other "sector unreadable"`).  `fuel` bounds the
number of rounds; `none` means fuel ran out (the Rust loop would still be
running). -/
def read_chain_loop (v : VFat) : Nat → Nat → List Nat → Nat →
    Option (IoResult (List Nat × Nat))
  | 0, _, _, _ => none
  | fuel + 1, cur, buf, read =>
    let buf1 := buf ++ List.replicate (v.bytesPerSector * v.sectorsPerCluster) 0
    let rc := read_cluster v cur 0 (buf1.length - read)
    let buf2 := writeAt buf1 read rc.1
    let read2 := read + rc.2
    match fatStatus (fat_entry v cur) with
    | .data next => read_chain_loop v fuel next buf2 read2
    | .eoc _ => some (.ok (buf2, read2))
    | _ => some (.err .unreadable)

/-- `VFat::read_chain(start, buf)`: run the loop from `read = 0` on the
caller's buffer. -/
def read_chain (v : VFat) (fuel : Nat) (start : Nat) (buf : List Nat) :
    Option (IoResult (List Nat × Nat)) :=
  read_chain_loop v fuel start buf 0

/-- Specification-level contents of one cluster: the `sectors_per_cluster`
consecutive logical sectors starting at the cluster's first data sector
(spec sections 3 and 4.5). -/
def clusterBytes (v : VFat) (c : Nat) : List Nat :=
  (((List.range v.sectorsPerCluster).map
    (fun i => v.disk ((c - 2) * v.sectorsPerCluster + v.dataStartSector + i)))).flatten

/-- Specification-level chain walk (spec section 4.5): follow the FAT from
`c`, collecting each cluster's bytes; stop on `Eoc`, fail on `Bad` or
`Reserved` (or `Unused`, mirroring the catch-all arm of the source). -/
def chainWalk (v : VFat) : Nat → Nat → Option (IoResult (List Nat))
  | 0, _ => none
  | fuel + 1, c =>
    match fatStatus (fat_entry v c) with
    | .data next => (chainWalk v fuel next).map (IoResult.map
        (fun bs => clusterBytes v c ++ bs))
    | .eoc _ => some (.ok (clusterBytes v c))
    | .unused => some (.err .unreadable)
    | .bad => some (.err .unreadable)
    | .reserved => some (.err .unreadable)

/-- The spec's `cluster_sector(c) = data_start + (c - 2) * sectors_per_cluster`
(spec section 3, Geometry). -/
def clusterSector (v : VFat) (c : Nat) : Nat :=
  v.dataStartSector + (c - 2) * v.sectorsPerCluster

/-- The mutable state of `File` (vfat/file.rs) relevant to `seek`: the u32
size and the u32 position `file_ptr`. -/
structure FileSt where
  size : Nat
  filePtr : Nat
  deriving DecidableEq, Repr

/-- `std::io::SeekFrom`: `Start` carries a u64, `End` and `Current` an i64. -/
inductive SeekFrom where
  | start (n : Nat)
  | fromEnd (n : Int)
  | current (n : Int)

/-- `File::seek` (vfat/file.rs lines 97-143).  Returns the state after the
call and the result.  Faithful points: `Start` compares the u64 offset with
`size()`; `End` computes a checked u64, then truncates with `as u32` before
comparing with `size() as u32`; `Current` truncates the i64 magnitude with
`as u32` before the checked u32 add/sub.  `(-offset) as u64` for a negative
i64 equals `offset.natAbs` (including `i64::MIN`, as compiled in release
mode). -/
def seek (f : FileSt) (pos : SeekFrom) : FileSt × IoResult Nat :=
  match pos with
  | .start offset =>
    if offset > f.size then (f, .err .invalidInput)
    else ({ f with filePtr := offset % 4294967296 }, .ok (offset % 4294967296))
  | .fromEnd offset =>
    let stepOpt : Option Nat :=
      if offset < 0 then
        (if offset.natAbs ≤ f.size then some (f.size - offset.natAbs) else none)
      else
        (if f.size + offset.toNat < 18446744073709551616 then
          some (f.size + offset.toNat) else none)
    match stepOpt with
    | none => (f, .err .invalidInput)
    | some t =>
      if t % 4294967296 > f.size % 4294967296 then (f, .err .invalidInput)
      else ({ f with filePtr := t % 4294967296 }, .ok (t % 4294967296))
  | .current offset =>
    let stepOpt : Option Nat :=
      if offset < 0 then
        (if offset.natAbs % 4294967296 ≤ f.filePtr then
          some (f.filePtr - offset.natAbs % 4294967296) else none)
      else
        (if f.filePtr + offset.toNat % 4294967296 < 4294967296 then
          some (f.filePtr + offset.toNat % 4294967296) else none)
    match stepOpt with
    | none => (f, .err .invalidInput)
    | some p =>
      if p > f.size % 4294967296 then (f, .err .invalidInput)
      else ({ f with filePtr := p }, .ok p)

/-- The state of `File` relevant to `read` (vfat/file.rs): starting cluster,
u32 size, u32 position. -/
structure FileRd where
  firstCluster : Nat
  size : Nat
  filePtr : Nat
  deriving DecidableEq, Repr

/-- `File::read` (vfat/file.rs lines 54-69): if size is 0 return 0; otherwise
read the whole chain into a fresh vector, copy
`min(size - file_ptr, buf.len() as u32)` bytes from offset `file_ptr` and
advance.  Returns the new state, the bytes copied and the count. -/
def fileRead (v : VFat) (fuel : Nat) (f : FileRd) (bufLen : Nat) :
    Option (IoResult (FileRd × List Nat × Nat)) :=
  if f.size = 0 then some (.ok (f, [], 0))
  else
    match read_chain v fuel f.firstCluster [] with
    | none => none
    | some (.err e) => some (.err e)
    | some (.ok (chainBuf, _)) =>
      let file_left := f.size - f.filePtr
      let can_read := min file_left (bufLen % 4294967296)
      some (.ok ({ f with filePtr := f.filePtr + can_read },
                 (chainBuf.drop f.filePtr).take can_read,
                 can_read))

/-! ## MBR parser (mbr.rs) -/

/-- The errors of `MasterBootRecord::from` (mbr.rs lines 56-64); the model
device cannot fail, so `Io` does not arise. -/
inductive MbrError where
  | unknownBootIndicator (i : Nat)
  | badSignature
  deriving DecidableEq, Repr

/-- One 16-byte partition entry (mbr.rs lines 23-32), parsed from sector 0 at
byte offset `446 + 16 * i`. -/
structure PartitionEntryM where
  bootIndicator : Nat
  partitionType : Nat
  relativeSector : Nat
  totalSectors : Nat
  deriving DecidableEq, Repr

/-- The result of `MasterBootRecord::from`. -/
inductive MbrResult where
  | ok (parts : List PartitionEntryM)
  | error (e : MbrError)
  deriving DecidableEq, Repr

/-- Parse partition entry `i` out of the 512-byte sector-0 image: the
partition table lives at bytes 446..510 (436 bootstrap + 10 disk id). -/
def parsePartition (sector : List Nat) (i : Nat) : PartitionEntryM :=
  { bootIndicator := sector.getD (446 + 16 * i) 0
    partitionType := sector.getD (446 + 16 * i + 4) 0
    relativeSector := read32LE sector (446 + 16 * i + 8)
    totalSectors := read32LE sector (446 + 16 * i + 12) }

/-- Boot-indicator byte of partition `i` (byte 0 of its entry). -/
def bootIndicatorAt (sector : List Nat) (i : Nat) : Nat :=
  sector.getD (446 + 16 * i) 0

/-- The `for i in 0..4` loop of `MasterBootRecord::from` (mbr.rs lines
98-103): the first index whose boot indicator is neither 0x00 nor 0x80. -/
def firstBadBoot (sector : List Nat) : Option Nat :=
  (List.range 4).find?
    (fun i => decide (bootIndicatorAt sector i ≠ 0 ∧ bootIndicatorAt sector i ≠ 0x80))

/-- `MasterBootRecord::from` (mbr.rs lines 84-106) on a sector-0 image:
check the trailing 0x55 0xAA signature (bytes 510-511), then scan the four
boot indicators in order. -/
def mbrFrom (sector : List Nat) : MbrResult :=
  if sector.getD 510 0 = 0x55 ∧ sector.getD 511 0 = 0xAA then
    match firstBadBoot sector with
    | some i => .error (.unknownBootIndicator i)
    | none => .ok [parsePartition sector 0, parsePartition sector 1,
                   parsePartition sector 2, parsePartition sector 3]
  else .error .badSignature

/-! ## Directory decoder (vfat/dir.rs) -/

/-- Byte 0 of a 32-byte directory slot (`VFatUnknownDirEntry::seq`). -/
def slotSeq (s : List Nat) : Nat := s.getD 0 0

/-- Byte 11 of a 32-byte directory slot (`VFatUnknownDirEntry::attr`). -/
def slotAttr (s : List Nat) : Nat := s.getD 11 0

/-- The 13 UTF-16LE code units of an LFN slot (`VFatLfnDirEntry`): 5 at bytes
1-10 (`chars1`), 6 at bytes 14-25 (`chars2`), 2 at bytes 28-31 (`chars3`). -/
def lfnUnits (s : List Nat) : List Nat :=
  [read16LE s 1, read16LE s 3, read16LE s 5, read16LE s 7, read16LE s 9,
   read16LE s 14, read16LE s 16, read16LE s 18, read16LE s 20, read16LE s 22,
   read16LE s 24, read16LE s 28, read16LE s 30]

/-- Trim trailing padding spaces (`str::trim_right` on a space-padded 8.3
field; the padding byte is 0x20). -/
def trimRight (l : List Nat) : List Nat :=
  (l.reverse.dropWhile (fun b => b = 0x20)).reverse

/-- Short-name assembly (dir.rs lines 181-197): trim the 8-byte name and the
3-byte extension independently; join with a dot when the extension is
non-empty. -/
def shortNameOf (s : List Nat) : List Nat :=
  let nm := trimRight (s.take 8)
  let ext := trimRight ((s.drop 8).take 3)
  if ext.length > 0 then nm ++ [46] ++ ext else nm

/-- The `lfn_vec` name buffer of `VFatDirEntryIter::next` (13 * 31 = 403
UTF-16 code units), modelled as a total function; unwritten positions hold
0. -/
def zeroBuf : Nat → Nat := fun _ => 0

/-- Write the 13 code units of one LFN slot at buffer position `p`
(dir.rs lines 166-169: three `copy_from_slice` calls covering
`lfn_vec[p*13 .. p*13+13]`). -/
def write13 (buf : Nat → Nat) (p : Nat) (units : List Nat) : Nat → Nat :=
  fun i => if i / 13 = p then units.getD (i % 13) 0 else buf i

/-- UTF-16 validity (`String::from_utf16(..).is_ok()`): no unpaired
surrogates. -/
def validUtf16 : List Nat → Bool
  | [] => true
  | u :: r =>
    if u < 0xD800 ∨ (0xE000 ≤ u ∧ u ≤ 0xFFFF) then validUtf16 r
    else if 0xD800 ≤ u ∧ u ≤ 0xDBFF then
      match r with
      | v :: r2 => decide (0xDC00 ≤ v ∧ v ≤ 0xDFFF) && validUtf16 r2
      | [] => false
    else false

/-- An entry emitted by the directory iterator.  `name` is the emitted name at
code-unit level (`String::from_utf16` / ASCII decoding are deterministic
functions of these units, so equal unit lists give equal names).  `size` is
filled from the 32-bit `file_sz` field; NOTE dir.rs line 216 builds
`File { .. }` without its declared `size` (and `file_ptr`) fields, which does
not typecheck against file.rs, so this field is modelled from the spec
(section 4.6: size is the 32-bit size field) and from `File::new`
(file.rs line 20), which stores `file_sz`. -/
structure Emitted where
  name : List Nat
  isDir : Bool
  firstCluster : Nat
  size : Nat
  deriving DecidableEq, Repr

/-- Emission of a short 8.3 slot (dir.rs lines 177-222): with accumulated LFN
slots the name is `lfn_vec` truncated at the first 0x0000 or 0xFFFF unit
(skip the entry when `String::from_utf16` fails); otherwise the trimmed short
name.  Cluster is `(cluster_num_hi << 16) | cluster_num_lo`
(bytes 20-21 and 26-27); `file_sz` is bytes 28-31. -/
def emitShort (s : List Nat) (lfnVec : Nat → Nat) (hasLfn : Bool) :
    Option Emitted :=
  let nameOpt : Option (List Nat) :=
    if hasLfn then
      let units := (List.range 403).map lfnVec
      let len := match units.findIdx? (fun c => decide (c = 0 ∨ c = 0xFFFF)) with
                 | some i => i
                 | none => 403
      let tk := units.take len
      if validUtf16 tk then some tk else none
    else some (shortNameOf s)
  nameOpt.map (fun nm =>
    { name := nm
      isDir := decide (slotAttr s &&& 0x10 = 0x10)
      firstCluster := (read16LE s 20) <<< 16 ||| read16LE s 26
      size := read32LE s 28 })

/-- `VFatDirEntryIter::next` (dir.rs lines 148-226) over the remaining
32-byte slots, with the `lfn_vec` buffer and `has_lfn` flag as loop state:
0x00 halts, 0xE5 skips, attribute 0x0F accumulates an LFN slot at position
`(seq & 0x1F) - 1`, anything else emits.  Returns the emitted entry and the
remaining slots.  (For a slot with `seq & 0x1F = 0` the Rust `usize`
subtraction would panic; `Nat` subtraction truncates to 0 — such slots
violate the LFN invariant and are excluded by hypothesis in the theorems.) -/
def dirIterNext : List (List Nat) → (Nat → Nat) → Bool →
    Option (Emitted × List (List Nat))
  | [], _, _ => none
  | s :: rest, lfnVec, hasLfn =>
    if slotSeq s = 0x00 then none
    else if slotSeq s = 0xE5 then dirIterNext rest lfnVec hasLfn
    else if slotAttr s = 0x0F then
      dirIterNext rest (write13 lfnVec (slotSeq s % 32 - 1) (lfnUnits s)) true
    else
      match emitShort s lfnVec hasLfn with
      | some e => some (e, rest)
      | none => none

/-! ## `Dir::find` (dir.rs lines 122-137) -/

/-- `u8::to_ascii_uppercase`. -/
def upcaseByte (b : Nat) : Nat := if 97 ≤ b ∧ b ≤ 122 then b - 32 else b

/-- `u8::to_ascii_lowercase`. -/
def downcaseByte (b : Nat) : Nat := if 65 ≤ b ∧ b ≤ 90 then b + 32 else b

/-- `str::eq_ignore_ascii_case` on UTF-8 byte strings: equal lengths and
bytes equal after ASCII lowercasing. -/
def eqIgnoreAsciiCase : List Nat → List Nat → Bool
  | [], [] => true
  | x :: xs, y :: ys =>
    decide (downcaseByte x = downcaseByte y) && eqIgnoreAsciiCase xs ys
  | _, _ => false

/-- The UTF-8 validation automaton, one byte per step.  The state is `need`
(how many continuation bytes are still expected; 0 = expect a lead byte) and
the admissible range `lo..hi` of the next byte (continuation bytes are
0x80..0xBF, except the first one after the leads 0xE0/0xED/0xF0/0xF4, whose
range excludes overlong forms, surrogates and code points above U+10FFFF). -/
def utf8SM : List Nat → Nat → Nat → Nat → Bool
  | [], need, _, _ => decide (need = 0)
  | b :: r, 0, _, _ =>
    if b ≤ 0x7F then utf8SM r 0 0 0
    else if 0xC2 ≤ b ∧ b ≤ 0xDF then utf8SM r 1 0x80 0xBF
    else if b = 0xE0 then utf8SM r 2 0xA0 0xBF
    else if b = 0xED then utf8SM r 2 0x80 0x9F
    else if 0xE1 ≤ b ∧ b ≤ 0xEF then utf8SM r 2 0x80 0xBF
    else if b = 0xF0 then utf8SM r 3 0x90 0xBF
    else if 0xF1 ≤ b ∧ b ≤ 0xF3 then utf8SM r 3 0x80 0xBF
    else if b = 0xF4 then utf8SM r 3 0x80 0x8F
    else false
  | b :: r, need + 1, lo, hi =>
    if lo ≤ b ∧ b ≤ hi then utf8SM r need 0x80 0xBF else false

/-- UTF-8 validity of a byte string (`OsStr::to_str` succeeds exactly on
valid UTF-8). -/
def validUtf8 (l : List Nat) : Bool := utf8SM l 0 0 0

/-- A directory entry as seen by `find`: its name as UTF-8 bytes, plus an
abstract payload standing for the rest of the entry (cluster, metadata, kind),
so that distinct entries with equal names stay distinct. -/
structure FEntry where
  name : List Nat
  payload : Nat
  deriving DecidableEq, Repr

/-- The `for entry in self.entries()?` loop of `Dir::find`: first entry whose
name matches case-insensitively, else `NotFound`. -/
def findLoop : List FEntry → List Nat → IoResult FEntry
  | [], _ => .err .notFound
  | e :: rest, nm =>
    if eqIgnoreAsciiCase e.name nm then .ok e else findLoop rest nm

/-- `Dir::find` (dir.rs lines 122-137): `OsStr::to_str` fails on non-UTF-8
input (`InvalidInput`); otherwise scan the entries. -/
def find (entries : List FEntry) (nm : List Nat) : IoResult FEntry :=
  if validUtf8 nm then findLoop entries nm else .err .invalidInput

/-! ## Concrete instances used by witnesses and counterexamples -/

/-- A tiny disk: sector 2 is the FAT sector holding entry 2 = 0x0FFFFFF8
(end of chain), sector 3 is the single data sector of cluster 2; all sectors
are 4 bytes. -/
def exampleDisk : Nat → List Nat := fun s =>
  if s = 2 then [0xF8, 0xFF, 0xFF, 0x0F]
  else if s = 3 then [1, 2, 3, 4]
  else [0, 0, 0, 0]

/-- A tiny volume: 4-byte sectors, 1 sector per cluster, FAT at sector 0,
data at sector 3; the chain from cluster 2 is the single cluster 2. -/
def exampleV : VFat :=
  { bytesPerSector := 4
    sectorsPerCluster := 1
    fatStartSector := 0
    dataStartSector := 3
    disk := exampleDisk }

/-- A volume with `data_start = 2048` and `sectors_per_cluster = 8` (the
concrete geometry of spec scenario 4); 1-byte sectors holding the byte 7. -/
def exampleV9 : VFat :=
  { bytesPerSector := 1
    sectorsPerCluster := 8
    fatStartSector := 0
    dataStartSector := 2048
    disk := fun _ => [7] }

/-- An empty file (size 0, position 0). -/
def emptyFile : FileSt := { size := 0, filePtr := 0 }

/-- A concrete short 8.3 slot: name `HELLO`, extension `TXT`, ARCHIVE
attribute, `cluster_num_hi = 1`, `cluster_num_lo = 2`, `file_sz = 42`. -/
def shortSlotEx : List Nat :=
  [72, 69, 76, 76, 79, 32, 32, 32, 84, 88, 84, 0x20, 0, 0, 0, 0,
   0, 0, 0, 0, 1, 0, 0, 0, 0, 0, 2, 0, 42, 0, 0, 0]

/-- A concrete LFN slot with sequence byte `seq` whose 13 code units all equal
`c`. -/
def lfnSlotEx (seq c : Nat) : List Nat :=
  [seq, c, 0, c, 0, c, 0, c, 0, c, 0, 0x0F, 0, 0, c, 0,
   c, 0, c, 0, c, 0, c, 0, c, 0, 0, 0, c, 0, c, 0]

/-- A concrete MBR sector-0 image: all zero except the 0x55 0xAA signature
and partition 2's boot indicator 0x7F (byte 446 + 16 * 2 = 478). -/
def mbrSectorEx : List Nat :=
  writeAt (writeAt (List.replicate 512 0) 510 [0x55, 0xAA]) 478 [0x7F]

/-- The accumulated effect on `lfn_vec` of processing a list of LFN slots in
order: each slot writes its 13 code units at position `(seq & 0x1F) - 1`. -/
def foldWrites (L : List (List Nat)) (buf : Nat → Nat) : Nat → Nat :=
  L.foldl (fun b s => write13 b (slotSeq s % 32 - 1) (lfnUnits s)) buf

/-! ## Theorems -/

/-- C3: for every cluster `c`, `fat_entry(c)` locates the 32-bit FAT entry
using `entries_per_sector = bytes_per_sector / 4`, fetching sector
`fat_start + c / entries_per_sector` through the cache and indexing it at
`c % entries_per_sector` (each index covering 4 bytes). -/
theorem fat_entry_locates (v : VFat) (c : Nat) :
    fat_entry v c =
      read32LE (v.disk (v.fatStartSector + c / (v.bytesPerSector / 4)))
               (4 * (c % (v.bytesPerSector / 4))) := by
  simp only [fat_entry, fatEntrySize]
  rw [Nat.add_comm, Nat.mul_comm]

/-- C2 (code evaluated at the failing input): on an empty file at position 0,
`seek(Current(2^32))` succeeds with position 0, although the untruncated
target `position + 2^32` is strictly greater than `size`, which the claim
(and the doc comment of `File::seek`) requires to fail with `InvalidInput`.
The cause: file.rs line 130 truncates the i64 offset with `as u32` before the
bounds check. -/
theorem seek_truncation_bug :
    seek emptyFile (SeekFrom.current 4294967296) = (emptyFile, IoResult.ok 0)
    ∧ emptyFile.size < emptyFile.filePtr + 4294967296 := by decide

/-- C10: seek is atomic with respect to the file position: whenever `seek`
returns an error, the position `file_ptr` is exactly what it was before the
call. -/
theorem seek_error_preserves_position (f : FileSt) (pos : SeekFrom) (e : IoErr)
    (h : (seek f pos).2 = .err e) : ((seek f pos).1).filePtr = f.filePtr := by
  rcases pos with n | n | n <;>
    simp only [seek] at h ⊢ <;>
    split_ifs at h ⊢ <;>
    (try simp_all) <;>
    (split_ifs at h ⊢ <;> simp_all)

/-- C10 witness: seeking past the end of an empty file errs and leaves the
position untouched. -/
theorem seek_error_preserves_position_witness :
    ((seek { size := 3, filePtr := 1 } (SeekFrom.start 5)).1).filePtr =
      ({ size := 3, filePtr := 1 } : FileSt).filePtr :=
  seek_error_preserves_position { size := 3, filePtr := 1 } (SeekFrom.start 5)
    IoErr.invalidInput (by decide)

/-- C5 (code evaluated at the failing input): decoding the short 8.3 slot
`HELLO.TXT` with `cluster_num_hi = 1`, `cluster_num_lo = 2`, `file_sz = 42`
emits starting cluster `(1 << 16) | 2` and size 42.  The starting cluster is
implemented by dir.rs line 204; the size field is modelled from the spec,
because dir.rs line 216 builds `File { .. }` without its declared `size` and
`file_ptr` fields, which does not typecheck against `File` in file.rs (whose
constructor `File::new` stores `file_sz`). -/
theorem dir_emit_cluster_size :
    dirIterNext [shortSlotEx] zeroBuf false =
      some ({ name := [72, 69, 76, 76, 79, 46, 84, 88, 84], isDir := false,
              firstCluster := 1 <<< 16 ||| 2, size := 42 }, []) := by decide

/-- C7: MBR parsing of a sector-0 image fails with `BadSignature` when the
trailing two bytes are not 0x55 0xAA, otherwise fails with
`UnknownBootIndicator(i)` for the first (0-based) partition index `i` whose
boot indicator is neither 0x00 nor 0x80, and succeeds when all four
indicators are valid. -/
theorem mbr_error_spec (sector : List Nat) :
    (¬(sector.getD 510 0 = 0x55 ∧ sector.getD 511 0 = 0xAA) →
       mbrFrom sector = .error .badSignature)
    ∧ (∀ i, i < 4 →
         sector.getD 510 0 = 0x55 → sector.getD 511 0 = 0xAA →
         bootIndicatorAt sector i ≠ 0 → bootIndicatorAt sector i ≠ 0x80 →
         (∀ j, j < i →
           bootIndicatorAt sector j = 0 ∨ bootIndicatorAt sector j = 0x80) →
         mbrFrom sector = .error (.unknownBootIndicator i))
    ∧ (sector.getD 510 0 = 0x55 → sector.getD 511 0 = 0xAA →
         (∀ j, j < 4 →
           bootIndicatorAt sector j = 0 ∨ bootIndicatorAt sector j = 0x80) →
         mbrFrom sector = .ok [parsePartition sector 0, parsePartition sector 1,
                               parsePartition sector 2, parsePartition sector 3]) := by
  have e4 : List.range 4 = [0, 1, 2, 3] := rfl
  refine ⟨fun h => by rw [mbrFrom, if_neg h], ?_, ?_⟩
  · intro i hi h510 h511 hb1 hb2 hprev
    rw [mbrFrom, if_pos ⟨h510, h511⟩]
    suffices hfb : firstBadBoot sector = some i by rw [hfb]
    rw [firstBadBoot, e4]
    interval_cases i
    · simp [List.find?, hb1, hb2]
    · have h0 := hprev 0 (by omega)
      rcases h0 with h0 | h0 <;> simp [List.find?, h0, hb1, hb2]
    · have h0 := hprev 0 (by omega); have h1 := hprev 1 (by omega)
      rcases h0 with h0 | h0 <;> rcases h1 with h1 | h1 <;>
        simp [List.find?, h0, h1, hb1, hb2]
    · have h0 := hprev 0 (by omega); have h1 := hprev 1 (by omega)
      have h2 := hprev 2 (by omega)
      rcases h0 with h0 | h0 <;> rcases h1 with h1 | h1 <;>
        rcases h2 with h2 | h2 <;>
        simp [List.find?, h0, h1, h2, hb1, hb2]
  · intro h510 h511 hall
    rw [mbrFrom, if_pos ⟨h510, h511⟩]
    suffices hfb : firstBadBoot sector = none by rw [hfb]
    rw [firstBadBoot, e4]
    have h0 := hall 0 (by omega); have h1 := hall 1 (by omega)
    have h2 := hall 2 (by omega); have h3 := hall 3 (by omega)
    rcases h0 with h0 | h0 <;> rcases h1 with h1 | h1 <;>
      rcases h2 with h2 | h2 <;> rcases h3 with h3 | h3 <;>
      simp [List.find?, h0, h1, h2, h3]

set_option maxRecDepth 4000 in
/-- C7 witness: a sector-0 image with a valid signature whose partition 2
carries boot indicator 0x7F is rejected with `UnknownBootIndicator(2)`. -/
theorem mbr_error_spec_witness :
    mbrFrom mbrSectorEx = .error (.unknownBootIndicator 2) :=
  (mbr_error_spec mbrSectorEx).2.1 2 (by decide) (by decide) (by decide)
    (by decide) (by decide)
    (by intro j hj; interval_cases j <;> exact Or.inl (by decide))

theorem readSectorsEval_len (v : VFat) : ∀ (l : List Nat) (r : Nat),
    (readSectorsEval v l r).1.length = (readSectorsEval v l r).2 := by
  intro l
  induction l with
  | nil => intro r; rfl
  | cons i rest ih =>
    intro r
    have hle : min (v.disk i).length r ≤ (v.disk i).length := Nat.min_le_left _ _
    simp only [readSectorsEval]
    simp [List.length_append, List.length_take, Nat.min_eq_left hle, ih]

theorem readSectorsEval_eq (v : VFat)
    (H1 : ∀ s, (v.disk s).length = v.bytesPerSector) :
    ∀ (n s r : Nat), n * v.bytesPerSector ≤ r →
    readSectorsEval v ((List.range n).map (fun i => s + i)) r =
      (((List.range n).map (fun i => v.disk (s + i))).flatten,
       n * v.bytesPerSector) := by
  intro n
  induction n with
  | zero => intro s r _; simp [readSectorsEval]
  | succ n ih =>
    intro s r hr
    have hsm : (n + 1) * v.bytesPerSector = n * v.bytesPerSector + v.bytesPerSector :=
      Nat.succ_mul _ _
    have hbr : v.bytesPerSector ≤ r := by omega
    rw [List.range_succ_eq_map]
    simp only [List.map_cons, List.map_map]
    have hcomp1 : ((fun i => s + i) ∘ Nat.succ) = fun i => (s + 1) + i := by
      funext i; simp only [Function.comp_apply]; omega
    have hcomp2 : ((fun i => v.disk (s + i)) ∘ Nat.succ) =
        fun i => v.disk ((s + 1) + i) := by
      funext i; simp only [Function.comp_apply]; congr 1; omega
    rw [hcomp1, hcomp2]
    simp only [Nat.add_zero]
    simp only [readSectorsEval]
    have hlen : (v.disk s).length = v.bytesPerSector := H1 s
    rw [hlen, Nat.min_eq_left hbr]
    have htake : (v.disk s).take v.bytesPerSector = v.disk s := by
      rw [← hlen]; exact List.take_length _
    rw [htake, ih (s + 1) (r - v.bytesPerSector) (by omega)]
    simp [List.flatten_cons, Prod.ext_iff]
    omega

theorem read_cluster_len (v : VFat) (c offset bufLen : Nat) :
    (read_cluster v c offset bufLen).1.length =
      (read_cluster v c offset bufLen).2 := by
  simp only [read_cluster]
  exact readSectorsEval_len v _ _

theorem read_cluster_full (v : VFat)
    (H1 : ∀ s, (v.disk s).length = v.bytesPerSector)
    (H2 : 0 < v.bytesPerSector) (c : Nat) :
    read_cluster v c 0 (v.bytesPerSector * v.sectorsPerCluster) =
      (clusterBytes v c, v.sectorsPerCluster * v.bytesPerSector) := by
  simp only [read_cluster, Nat.add_zero]
  rw [Nat.mul_div_cancel_left _ H2, Nat.min_self, Nat.add_sub_cancel_left]
  exact readSectorsEval_eq v H1 _ _ _ (Nat.le_of_eq (Nat.mul_comm _ _))

theorem clusterBytes_length (v : VFat)
    (H1 : ∀ s, (v.disk s).length = v.bytesPerSector)
    (H2 : 0 < v.bytesPerSector) (c : Nat) :
    (clusterBytes v c).length = v.sectorsPerCluster * v.bytesPerSector := by
  have h2 := read_cluster_len v c 0 (v.bytesPerSector * v.sectorsPerCluster)
  rw [read_cluster_full v H1 H2 c] at h2
  exact h2

theorem read_chain_loop_eq (v : VFat)
    (H1 : ∀ s, (v.disk s).length = v.bytesPerSector)
    (H2 : 0 < v.bytesPerSector) :
    ∀ (fuel cur : Nat) (buf : List Nat),
    read_chain_loop v fuel cur buf buf.length =
      (chainWalk v fuel cur).map (IoResult.map
        (fun bs => (buf ++ bs, buf.length + bs.length))) := by
  intro fuel
  induction fuel with
  | zero => intro cur buf; rfl
  | succ fuel ih =>
    intro cur buf
    have hC : (buf ++ List.replicate (v.bytesPerSector * v.sectorsPerCluster) 0).length
        - buf.length = v.bytesPerSector * v.sectorsPerCluster := by simp
    have hcb : (clusterBytes v cur).length =
        v.sectorsPerCluster * v.bytesPerSector := clusterBytes_length v H1 H2 cur
    have hw : writeAt
        (buf ++ List.replicate (v.bytesPerSector * v.sectorsPerCluster) 0)
        buf.length (clusterBytes v cur) = buf ++ clusterBytes v cur := by
      rw [writeAt, List.take_left]
      have hdrop : (buf ++ List.replicate (v.bytesPerSector * v.sectorsPerCluster) 0).drop
          (buf.length + (clusterBytes v cur).length) = [] := by
        apply List.drop_eq_nil_of_le
        simp [hcb, Nat.mul_comm]
      rw [hdrop, List.append_nil]
    simp only [read_chain_loop, chainWalk, hC,
      read_cluster_full v H1 H2 cur, hw]
    cases hst : fatStatus (fat_entry v cur) with
    | data next =>
      dsimp only
      have hlen3 : buf.length + v.sectorsPerCluster * v.bytesPerSector =
          (buf ++ clusterBytes v cur).length := by simp [hcb]
      rw [hlen3, ih next (buf ++ clusterBytes v cur)]
      cases hcw : chainWalk v fuel next with
      | none => rfl
      | some r =>
        cases r with
        | ok bs =>
          simp [Option.map, IoResult.map, Prod.ext_iff, List.append_assoc, hcb]
          omega
        | err e => rfl
    | eoc m => dsimp only; simp [Option.map, IoResult.map, Prod.ext_iff, hcb]
    | unused => rfl
    | bad => rfl
    | reserved => rfl

theorem chainWalk_dvd (v : VFat)
    (H1 : ∀ s, (v.disk s).length = v.bytesPerSector)
    (H2 : 0 < v.bytesPerSector) :
    ∀ (fuel c : Nat) (bs : List Nat), chainWalk v fuel c = some (.ok bs) →
      (v.bytesPerSector * v.sectorsPerCluster) ∣ bs.length := by
  intro fuel
  induction fuel with
  | zero => intro c bs h; simp [chainWalk] at h
  | succ fuel ih =>
    intro c bs h
    rw [chainWalk] at h
    cases hst : fatStatus (fat_entry v c) <;> rw [hst] at h <;> dsimp only at h
    case unused => simp at h
    case bad => simp at h
    case reserved => simp at h
    case eoc m =>
      have hbs : clusterBytes v c = bs := by simpa using h
      rw [← hbs, clusterBytes_length v H1 H2 c, Nat.mul_comm]
    case data next =>
      cases hcw : chainWalk v fuel next <;> rw [hcw] at h
      case none => simp at h
      case some r =>
        cases r with
        | ok bs2 =>
          have hbs : clusterBytes v c ++ bs2 = bs := by
            simpa [IoResult.map] using h
          rw [← hbs, List.length_append, clusterBytes_length v H1 H2 c]
          exact Nat.dvd_add (Dvd.intro_left 1 (by rw [Nat.one_mul, Nat.mul_comm]))
            (ih next bs2 hcw)
        | err e => simp [IoResult.map] at h

/-- C1 counterexample: on the example volume, `read_chain(2, buf)` with the
nonempty initial buffer `[9]` returns `n = 4`, but the buffer after the call
has length 5 (the cluster bytes were written starting at offset 0,
overwriting the pre-existing byte, and the returned `n` is not `buf.len()`).
This refutes the claim as stated for arbitrary initial `buf`. -/
theorem read_chain_nonempty_buf_counterexample :
    read_chain exampleV 2 2 [9] = some (.ok ([1, 2, 3, 4, 0], 4))
    ∧ ([1, 2, 3, 4, 0] : List Nat).length ≠ 4 := by decide

/-- C1 (amended: `buf` initially empty): `read_chain(c, buf)` on an empty
buffer produces exactly the byte stream of the chain — it agrees with the
specification-level `chainWalk`, which appends one cluster's bytes per step,
stops on `Eoc` and fails on `Bad`/`Reserved` (or `Unused`) — returning `n`
equal to the final `buf.len()`; and every successful chain walk yields a
length that is a multiple of `bytes_per_sector * sectors_per_cluster`. -/
theorem read_chain_appends (v : VFat)
    (H1 : ∀ s, (v.disk s).length = v.bytesPerSector)
    (H2 : 0 < v.bytesPerSector) (fuel c : Nat) :
    read_chain v fuel c [] =
      (chainWalk v fuel c).map (IoResult.map (fun bs => (bs, bs.length)))
    ∧ ∀ bs, chainWalk v fuel c = some (.ok bs) →
        (v.bytesPerSector * v.sectorsPerCluster) ∣ bs.length := by
  constructor
  · have h := read_chain_loop_eq v H1 H2 fuel c []
    simpa using h
  · exact chainWalk_dvd v H1 H2 fuel c

theorem exampleDisk_len : ∀ s, (exampleV.disk s).length = exampleV.bytesPerSector := by
  intro s
  simp only [exampleV, exampleDisk]
  split_ifs <;> rfl

/-- C1 witness: on the example volume the chain from cluster 2 is the single
cluster 2; `read_chain` on an empty buffer returns its 4 bytes with `n = 4 =
buf.len()`, a multiple of `bytes_per_sector * sectors_per_cluster = 4`. -/
theorem read_chain_appends_witness :
    read_chain exampleV 2 2 [] = some (.ok ([1, 2, 3, 4], 4))
    ∧ (exampleV.bytesPerSector * exampleV.sectorsPerCluster) ∣ 4 := by
  have h := read_chain_appends exampleV exampleDisk_len (by decide) 2 2
  constructor
  · rw [h.1]; decide
  · exact h.2 [1, 2, 3, 4] (by decide)

/-- C9: for a cluster `c ≥ 2`, `read_cluster(c, offset, buf)` starts reading
at sector `cluster_sector(c) + offset`, reads consecutive whole sectors until
either the cluster's `sectors_per_cluster` sectors are consumed or the buffer
is full rounded down to sector size (`buf.len() / bytes_per_sector` whole
sectors), and returns the bytes actually read; and with `data_start = 2048`
and `sectors_per_cluster = 8`, `cluster_sector(2) = 2048` and
`cluster_sector(3) = 2056`. -/
theorem read_cluster_reads_sectors (v : VFat)
    (H1 : ∀ s, (v.disk s).length = v.bytesPerSector)
    (H2 : 0 < v.bytesPerSector) (c offset bufLen : Nat) (hc : 2 ≤ c) :
    read_cluster v c offset bufLen =
      (((List.range (min (clusterSector v c + v.sectorsPerCluster)
            (clusterSector v c + offset + bufLen / v.bytesPerSector)
          - (clusterSector v c + offset))).map
          (fun i => v.disk (clusterSector v c + offset + i))).flatten,
        (min (clusterSector v c + v.sectorsPerCluster)
            (clusterSector v c + offset + bufLen / v.bytesPerSector)
          - (clusterSector v c + offset)) * v.bytesPerSector)
    ∧ (v.dataStartSector = 2048 → v.sectorsPerCluster = 8 →
        clusterSector v 2 = 2048 ∧ clusterSector v 3 = 2056) := by
  constructor
  · have hset : clusterSector v c =
        (c - 2) * v.sectorsPerCluster + v.dataStartSector := Nat.add_comm _ _
    rw [hset]
    simp only [read_cluster]
    have hmin := Nat.min_le_right
      ((c - 2) * v.sectorsPerCluster + v.dataStartSector + v.sectorsPerCluster)
      ((c - 2) * v.sectorsPerCluster + v.dataStartSector + offset +
        bufLen / v.bytesPerSector)
    have hstep : min ((c - 2) * v.sectorsPerCluster + v.dataStartSector +
          v.sectorsPerCluster)
        ((c - 2) * v.sectorsPerCluster + v.dataStartSector + offset +
          bufLen / v.bytesPerSector)
        - ((c - 2) * v.sectorsPerCluster + v.dataStartSector + offset)
        ≤ bufLen / v.bytesPerSector := by
      have h2 := Nat.sub_le_sub_right hmin
        ((c - 2) * v.sectorsPerCluster + v.dataStartSector + offset)
      simpa [Nat.add_sub_cancel_left] using h2
    apply readSectorsEval_eq v H1
    calc (min ((c - 2) * v.sectorsPerCluster + v.dataStartSector + v.sectorsPerCluster)
            ((c - 2) * v.sectorsPerCluster + v.dataStartSector + offset +
              bufLen / v.bytesPerSector)
          - ((c - 2) * v.sectorsPerCluster + v.dataStartSector + offset))
            * v.bytesPerSector
        ≤ (bufLen / v.bytesPerSector) * v.bytesPerSector :=
          Nat.mul_le_mul_right _ hstep
      _ ≤ bufLen := Nat.div_mul_le_self _ _
  · intro h1 h2
    constructor <;> simp [clusterSector, h1, h2]

/-- C9 witness: on a volume with `data_start = 2048`, `sectors_per_cluster =
8` and 1-byte sectors, `read_cluster(2, 0, buf)` with a 3-byte buffer reads 3
whole sectors starting at `cluster_sector(2) = 2048`; and `cluster_sector(3)
= 2056`. -/
theorem read_cluster_reads_sectors_witness :
    read_cluster exampleV9 2 0 3 = ([7, 7, 7], 3)
    ∧ clusterSector exampleV9 2 = 2048 ∧ clusterSector exampleV9 3 = 2056 := by
  have h := read_cluster_reads_sectors exampleV9 (fun _ => rfl) (by decide)
    2 0 3 (by decide)
  refine ⟨?_, (h.2 rfl rfl).1, (h.2 rfl rfl).2⟩
  rw [h.1]
  decide

/-- C8: for a file with nonzero size, a position within the file, and an
output buffer (shorter than 2^32 so the `buf.len() as u32` cast is lossless),
`read` copies exactly `min(size - position, buf.len())` bytes of the file's
chain starting at offset `position` into the buffer, advances the position by
that amount, and returns it; when the size is zero, `read` returns 0 and
moves nothing. -/
theorem file_read_copies_min (v : VFat) (fuel : Nat) (f : FileRd)
    (bufLen : Nat) (cbuf : List Nat) (n : Nat)
    (hchain : read_chain v fuel f.firstCluster [] = some (.ok (cbuf, n)))
    (hpos : f.filePtr ≤ f.size) (hsz : f.size ≤ cbuf.length)
    (hb : bufLen < 4294967296) :
    (f.size ≠ 0 →
      fileRead v fuel f bufLen =
        some (.ok ({ f with filePtr := f.filePtr + min (f.size - f.filePtr) bufLen },
                   (cbuf.drop f.filePtr).take (min (f.size - f.filePtr) bufLen),
                   min (f.size - f.filePtr) bufLen))
      ∧ ((cbuf.drop f.filePtr).take (min (f.size - f.filePtr) bufLen)).length
          = min (f.size - f.filePtr) bufLen)
    ∧ (f.size = 0 → fileRead v fuel f bufLen = some (.ok (f, [], 0))) := by
  constructor
  · intro hne
    have hmod : bufLen % 4294967296 = bufLen := Nat.mod_eq_of_lt hb
    constructor
    · rw [fileRead, if_neg hne, hchain, hmod]
    · rw [List.length_take, List.length_drop]
      have hle : min (f.size - f.filePtr) bufLen ≤ cbuf.length - f.filePtr := by
        have h1 : f.size - f.filePtr ≤ cbuf.length - f.filePtr :=
          Nat.sub_le_sub_right hsz _
        exact le_trans (Nat.min_le_left _ _) h1
      exact Nat.min_eq_left hle
  · intro h0
    rw [fileRead, if_pos h0]

/-- C8 witness: on the example volume, reading 1 byte of a 3-byte file
positioned at offset 1 copies byte `[2]` of the chain, moves the position to
2 and returns 1. -/
theorem file_read_copies_min_witness :
    fileRead exampleV 2 { firstCluster := 2, size := 3, filePtr := 1 } 1 =
      some (.ok ({ firstCluster := 2, size := 3, filePtr := 2 }, [2], 1)) := by
  have h := (file_read_copies_min exampleV 2
    { firstCluster := 2, size := 3, filePtr := 1 } 1 [1, 2, 3, 4] 4
    (by decide) (by decide) (by decide) (by decide)).1 (by decide)
  rw [h.1]
  decide

theorem write13_comm (buf : Nat → Nat) (p q : Nat) (hpq : p ≠ q)
    (u w : List Nat) :
    write13 (write13 buf p u) q w = write13 (write13 buf q w) p u := by
  funext i
  simp only [write13]
  by_cases h1 : i / 13 = q <;> by_cases h2 : i / 13 = p
  · exact absurd (h2.symm.trans h1) hpq
  · simp [h1, h2, hpq, hpq.symm]
  · simp [h1, h2, hpq, hpq.symm]
  · simp [h1, h2]

theorem dirIterNext_lfn_run :
    ∀ (L rest : List (List Nat)) (buf : Nat → Nat) (h : Bool),
    (∀ s ∈ L, slotSeq s ≠ 0 ∧ slotSeq s ≠ 0xE5 ∧ slotAttr s = 0x0F) →
    dirIterNext (L ++ rest) buf h =
      dirIterNext rest (foldWrites L buf) (h || !L.isEmpty) := by
  intro L
  induction L with
  | nil => intro rest buf h _; simp [foldWrites]
  | cons s L ih =>
    intro rest buf h hl
    have hs := hl s (List.mem_cons_self s L)
    simp only [List.cons_append, dirIterNext]
    rw [if_neg hs.1, if_neg hs.2.1, if_pos hs.2.2]
    simp only [List.append_eq]
    rw [ih rest _ true (fun t ht => hl t (List.mem_cons_of_mem s ht))]
    simp [foldWrites]

theorem foldWrites_perm : ∀ {L Lp : List (List Nat)}, L.Perm Lp →
    (L.map (fun s => slotSeq s % 32 - 1)).Nodup →
    ∀ buf, foldWrites L buf = foldWrites Lp buf := by
  intro L Lp hperm
  induction hperm with
  | nil => intro _ buf; rfl
  | cons x h ih =>
    intro hd buf
    rw [List.map_cons] at hd
    have hd2 := (List.nodup_cons.mp hd).2
    simp only [foldWrites, List.foldl_cons]
    exact ih hd2 _
  | swap x y l =>
    intro hd buf
    rw [List.map_cons, List.map_cons] at hd
    have h1 := (List.nodup_cons.mp hd).1
    have hxy : slotSeq y % 32 - 1 ≠ slotSeq x % 32 - 1 := by
      intro hcon
      apply h1
      rw [hcon]
      exact List.mem_cons_self _ _
    simp only [foldWrites, List.foldl_cons]
    rw [write13_comm buf (slotSeq y % 32 - 1) (slotSeq x % 32 - 1) hxy]
  | trans h1 h2 ih1 ih2 =>
    intro hd buf
    have hd2 := (h1.map (fun s => slotSeq s % 32 - 1)).nodup hd
    rw [ih1 hd buf, ih2 hd2 buf]

theorem nodup_pos_of_nodup_seq :
    ∀ (L : List (List Nat)), (∀ s ∈ L, 1 ≤ slotSeq s % 32) →
    (L.map (fun s => slotSeq s % 32)).Nodup →
    (L.map (fun s => slotSeq s % 32 - 1)).Nodup := by
  intro L
  induction L with
  | nil => intro _ _; simp
  | cons a l ih =>
    intro h1 hd
    simp only [List.map_cons, List.nodup_cons] at hd ⊢
    refine ⟨?_, ih (fun s hs => h1 s (List.mem_cons_of_mem a hs)) hd.2⟩
    intro hmem
    rcases List.mem_map.mp hmem with ⟨b, hb, heq⟩
    have ha := h1 a (List.mem_cons_self a l)
    have hbge := h1 b (List.mem_cons_of_mem a hb)
    have hseq : slotSeq b % 32 = slotSeq a % 32 := by omega
    exact hd.1 (List.mem_map.mpr ⟨b, hb, hseq⟩)

/-- C4 (amended: the LFN slots carry pairwise-distinct sequence indices):
long-file-name assembly is order-independent.  Each LFN slot's 13 UTF-16LE
code units are written into the name buffer at offset `((seq & 0x1F) - 1) *
13` (embodied in `write13`/`dirIterNext`), so for a directory whose LFN slots
satisfy the LFN invariant (low 5 bits of `seq` in `1..=31`) with
pairwise-distinct indices, any permutation of the physical order of the LFN
slots preceding a short entry yields the same emitted entry — in particular
the same name. -/
theorem lfn_order_independent (L Lp : List (List Nat)) (short : List Nat)
    (hperm : L.Perm Lp)
    (hl : ∀ s ∈ L, slotAttr s = 0x0F ∧ 1 ≤ slotSeq s % 32 ∧
      slotSeq s % 32 ≤ 31 ∧ slotSeq s ≠ 0xE5)
    (hdist : (L.map (fun s => slotSeq s % 32)).Nodup)
    (hshort : slotSeq short ≠ 0 ∧ slotSeq short ≠ 0xE5 ∧ slotAttr short ≠ 0x0F) :
    dirIterNext (L ++ [short]) zeroBuf false =
      dirIterNext (Lp ++ [short]) zeroBuf false := by
  have hseq0 : ∀ s ∈ L, slotSeq s ≠ 0 ∧ slotSeq s ≠ 0xE5 ∧ slotAttr s = 0x0F := by
    intro s hs
    obtain ⟨h1, h2, h3, h4⟩ := hl s hs
    exact ⟨by omega, h4, h1⟩
  have hseq0p : ∀ s ∈ Lp, slotSeq s ≠ 0 ∧ slotSeq s ≠ 0xE5 ∧ slotAttr s = 0x0F :=
    fun s hs => hseq0 s (hperm.mem_iff.mpr hs)
  rw [dirIterNext_lfn_run L [short] zeroBuf false hseq0,
      dirIterNext_lfn_run Lp [short] zeroBuf false hseq0p]
  rw [foldWrites_perm hperm
    (nodup_pos_of_nodup_seq L (fun s hs => (hl s hs).2.1) hdist) zeroBuf]
  have hlen := hperm.length_eq
  have hemp : L.isEmpty = Lp.isEmpty := by
    rcases L with _ | ⟨a, l⟩ <;> rcases Lp with _ | ⟨b, m⟩ <;> simp_all
  rw [hemp]

set_option maxRecDepth 10000 in
/-- C4 counterexample: two LFN slots that both carry sequence index 1 (low 5
bits of `seq`, within the claimed invariant `1..=31`) but different code
units.  Swapping their physical order (preserving each slot's sequence byte)
changes the emitted name — the later slot's write overwrites the earlier one
at the same buffer position — so the claim is false without a distinctness
requirement on the sequence indices. -/
theorem lfn_duplicate_seq_order_dependent :
    dirIterNext [lfnSlotEx 1 65, lfnSlotEx 1 66, shortSlotEx] zeroBuf false ≠
      dirIterNext [lfnSlotEx 1 66, lfnSlotEx 1 65, shortSlotEx] zeroBuf false := by
  decide

set_option maxRecDepth 10000 in
/-- C4 witness: two LFN slots with sequence bytes 0x42 and 0x01 (distinct
indices 2 and 1) followed by a short entry emit the same entry in either
physical order. -/
theorem lfn_order_independent_witness :
    dirIterNext ([lfnSlotEx 0x42 104, lfnSlotEx 1 103] ++ [shortSlotEx])
        zeroBuf false =
      dirIterNext ([lfnSlotEx 1 103, lfnSlotEx 0x42 104] ++ [shortSlotEx])
        zeroBuf false :=
  lfn_order_independent [lfnSlotEx 0x42 104, lfnSlotEx 1 103]
    [lfnSlotEx 1 103, lfnSlotEx 0x42 104] shortSlotEx
    (List.Perm.swap (lfnSlotEx 1 103) (lfnSlotEx 0x42 104) [])
    (by decide) (by decide) (by decide)

theorem downcase_upcase (y : Nat) :
    downcaseByte (upcaseByte y) = downcaseByte y := by
  simp only [upcaseByte, downcaseByte]
  split_ifs <;> omega

theorem downcase_downcase (y : Nat) :
    downcaseByte (downcaseByte y) = downcaseByte y := by
  simp only [downcaseByte]
  split_ifs <;> omega

theorem upcase_low (b : Nat) (h : b ≤ 0x7F) : upcaseByte b ≤ 0x7F := by
  simp only [upcaseByte]; split_ifs <;> omega

theorem upcase_high (b : Nat) (h : 0x80 ≤ b) : upcaseByte b = b := by
  simp only [upcaseByte]; split_ifs <;> omega

theorem downcase_low (b : Nat) (h : b ≤ 0x7F) : downcaseByte b ≤ 0x7F := by
  simp only [downcaseByte]; split_ifs <;> omega

theorem downcase_high (b : Nat) (h : 0x80 ≤ b) : downcaseByte b = b := by
  simp only [downcaseByte]; split_ifs <;> omega

theorem eqIC_map (g : Nat → Nat)
    (hg : ∀ y, downcaseByte (g y) = downcaseByte y) :
    ∀ (a b : List Nat), eqIgnoreAsciiCase a (b.map g) = eqIgnoreAsciiCase a b := by
  intro a
  induction a with
  | nil => intro b; cases b <;> simp [eqIgnoreAsciiCase]
  | cons x xs ih =>
    intro b
    cases b with
    | nil => simp [eqIgnoreAsciiCase]
    | cons y ys => simp [eqIgnoreAsciiCase, hg, ih]


theorem utf8SM_map (g : Nat → Nat)
    (hlow : ∀ b, b ≤ 0x7F → g b ≤ 0x7F)
    (hhigh : ∀ b, 0x80 ≤ b → g b = b) :
    ∀ (l : List Nat) (need lo hi : Nat), need = 0 ∨ 0x80 ≤ lo →
    utf8SM (l.map g) need lo hi = utf8SM l need lo hi := by
  intro l
  induction l with
  | nil => intro need lo hi _; rfl
  | cons b r ih =>
    intro need lo hi hst
    rw [List.map_cons]
    cases need with
    | zero =>
      simp only [utf8SM]
      by_cases hb : b ≤ 0x7F
      · rw [if_pos (hlow b hb), if_pos hb]
        exact ih 0 0 0 (Or.inl rfl)
      · rw [hhigh b (by omega)]
        split_ifs <;> first
          | rfl
          | (exact ih _ _ _ (by omega))
    | succ need =>
      simp only [utf8SM]
      have hlo : 0x80 ≤ lo := by omega
      have hcond : (lo ≤ g b ∧ g b ≤ hi) ↔ (lo ≤ b ∧ b ≤ hi) := by
        rcases Nat.lt_or_ge b 0x80 with h | h
        · have := hlow b (by omega)
          omega
        · rw [hhigh b h]
      by_cases hc : lo ≤ b ∧ b ≤ hi
      · rw [if_pos (hcond.mpr hc), if_pos hc]
        exact ih need 0x80 0xBF (Or.inr (by omega))
      · rw [if_neg (fun hx => hc (hcond.mp hx)), if_neg hc]

theorem validUtf8_map_ascii (g : Nat → Nat)
    (hlow : ∀ b, b ≤ 0x7F → g b ≤ 0x7F)
    (hhigh : ∀ b, 0x80 ≤ b → g b = b) (nm : List Nat) :
    validUtf8 (nm.map g) = validUtf8 nm :=
  utf8SM_map g hlow hhigh nm 0 0 0 (Or.inl rfl)

theorem findLoop_eq_find? (es : List FEntry) (x : List Nat) :
    findLoop es x =
      (match es.find? (fun e => eqIgnoreAsciiCase e.name x) with
        | some e => IoResult.ok e
        | none => IoResult.err .notFound) := by
  induction es with
  | nil => rfl
  | cons e es ih =>
    by_cases hp : eqIgnoreAsciiCase e.name x = true
    · have hfind : (e :: es).find? (fun t => eqIgnoreAsciiCase t.name x) = some e :=
        List.find?_cons_of_pos _ (by simpa using hp)
      rw [findLoop, if_pos hp, hfind]
    · have hp2 : eqIgnoreAsciiCase e.name x = false :=
        Bool.eq_false_iff.mpr hp
      have hfind : (e :: es).find? (fun t => eqIgnoreAsciiCase t.name x) =
          es.find? (fun t => eqIgnoreAsciiCase t.name x) :=
        List.find?_cons_of_neg _ (by simp [hp2])
      rw [findLoop, if_neg (by simp [hp2]), hfind, ih]

/-- C6: `find` fails with `InvalidInput` when the name is not valid UTF-8,
otherwise returns the first entry whose name equals the argument under ASCII
case-insensitive comparison and fails with `NotFound` when no entry matches;
and `find(upcase(n))` and `find(downcase(n))` coincide with `find(n)`. -/
theorem find_case_insensitive (entries : List FEntry) (nm : List Nat) :
    (validUtf8 nm = false → find entries nm = .err .invalidInput)
    ∧ (validUtf8 nm = true → find entries nm =
        (match entries.find? (fun e => eqIgnoreAsciiCase e.name nm) with
          | some e => IoResult.ok e
          | none => IoResult.err .notFound))
    ∧ find entries (nm.map upcaseByte) = find entries nm
    ∧ find entries (nm.map downcaseByte) = find entries nm := by
  have hmap : ∀ (g : Nat → Nat), (∀ y, downcaseByte (g y) = downcaseByte y) →
      (∀ b, b ≤ 0x7F → g b ≤ 0x7F) → (∀ b, 0x80 ≤ b → g b = b) →
      find entries (nm.map g) = find entries nm := by
    intro g hg hl hh
    have hloop : ∀ es : List FEntry, findLoop es (nm.map g) = findLoop es nm := by
      intro es
      induction es with
      | nil => rfl
      | cons e es ih => rw [findLoop, findLoop, eqIC_map g hg e.name nm, ih]
    rw [find, find, validUtf8_map_ascii g hl hh nm]
    cases hv : validUtf8 nm
    · simp [hv]
    · simp only [hv, if_true]
      exact hloop entries
  refine ⟨?_, ?_, ?_, ?_⟩
  · intro h
    rw [find, if_neg (by simp [h])]
  · intro h
    rw [find, if_pos (by simp [h])]
    exact findLoop_eq_find? entries nm
  · exact hmap upcaseByte downcase_upcase upcase_low upcase_high
  · exact hmap downcaseByte downcase_downcase downcase_low downcase_high

/-- C6 witness: in a directory with entries named `FOO` and `B`, looking up
`foo` finds the `FOO` entry, upcasing the query gives the same result, and a
non-UTF-8 query (the lone byte 0xFF) fails with `InvalidInput`. -/
theorem find_case_insensitive_witness :
    find [⟨[70, 79, 79], 0⟩, ⟨[66], 1⟩] [102, 111, 111] = .ok ⟨[70, 79, 79], 0⟩
    ∧ find [⟨[70, 79, 79], 0⟩, ⟨[66], 1⟩] ([102, 111, 111].map upcaseByte) =
        find [⟨[70, 79, 79], 0⟩, ⟨[66], 1⟩] [102, 111, 111]
    ∧ find [⟨[70, 79, 79], 0⟩, ⟨[66], 1⟩] [0xFF] = .err .invalidInput := by
  have h := find_case_insensitive [⟨[70, 79, 79], 0⟩, ⟨[66], 1⟩] [102, 111, 111]
  refine ⟨?_, h.2.2.1, ?_⟩
  · rw [h.2.1 (by decide)]
    decide
  · exact (find_case_insensitive [⟨[70, 79, 79], 0⟩, ⟨[66], 1⟩] [0xFF]).1 (by decide)
